import Mathlib

/-!
Verification of the operator shift management core: the distribution
calculator and shift/break generator from `src/lib/distribution-utils.ts`
together with the inline generator, active-hour filter, per-hour
distribution entry and manual adjustment handler of the distribution page.

Modelling conventions:
* JavaScript numbers that only ever hold integers are modelled as `ℤ`
  (loop indices as `ℕ`); genuinely fractional values (proportional shares,
  response rates) are modelled as `ℚ`.
* The JS remainder operator `%` (sign of the dividend) is `Int.tmod`;
  `Math.floor` of a quotient is `Int.fdiv`; `Math.ceil` on a rational is
  `Int.ceil`.
* An `HH:MM` string is represented by its parsed content, a pair of
  integers: `formatTime` in the source builds the string and `parseTime`
  recovers exactly the hour and minute put in, so the pair is a faithful
  model. `renderHM`/`renderBreak` reproduce the exact JS string (including
  the `padStart(2, "0")` padding) where a claim speaks about the literal
  string.
* A JS `Record<string, number>` is modelled as a total function
  `String → ℤ` built by `Function.update`, zero outside its domain; sums
  of `Object.values` are taken over the (distinct-id) province list that
  built the record.
-/

namespace OperatorShiftMgmt

/-- JS `%` remainder: truncated division remainder, sign of the dividend. -/
def jsMod (a b : ℤ) : ℤ := Int.tmod a b

/-- `Math.floor(a / b)` on integer operands: floored division. -/
def jsFloorDiv (a b : ℤ) : ℤ := Int.fdiv a b

/-- `Math.ceil(a / b)` on integer operands with positive divisor, kept in
integer arithmetic so that concrete runs of the distribution pipeline
reduce; `ceilDiv_eq_ceil` proves it equal to the rational ceiling the
source expression denotes. (The inner `/` on `ℤ` rounds toward minus
infinity for a positive divisor, so `-((-a) / b)` is the ceiling.) -/
def ceilDiv (a b : ℤ) : ℤ := -((-a) / b)

/-- `ceilDiv` agrees with the exact rational `Math.ceil(a / b)`. -/
theorem ceilDiv_eq_ceil (a b : ℤ) (hb : 0 < b) :
    ceilDiv a b = Int.ceil ((a : ℚ) / (b : ℚ)) := by
  have hbn : ((b.toNat : ℕ) : ℤ) = b := Int.toNat_of_nonneg hb.le
  have hbq : ((b.toNat : ℕ) : ℚ) = (b : ℚ) := by exact_mod_cast congrArg (Int.cast : ℤ → ℚ) hbn
  have h : Int.ceil ((a : ℚ) / (b : ℚ)) = -Int.floor (-((a : ℚ) / (b : ℚ))) := by
    rw [← Int.ceil_neg, neg_neg]
  rw [h, show -((a : ℚ) / (b : ℚ)) = ((-a : ℤ) : ℚ) / ((b.toNat : ℕ) : ℚ) by
    rw [hbq]
    push_cast
    ring]
  rw [Rat.floor_intCast_div_natCast, ceilDiv, hbn]

/-- Parsed content of an `HH:MM` time string. -/
structure HM where
  hour : ℤ
  minute : ℤ
deriving DecidableEq, Repr

/-- `formatTime` from `distribution-utils.ts` (and its copy in the page):
builds the `HH:MM` string, modelled by its parsed content. -/
def formatTime (hour minute : ℤ) : HM := ⟨hour, minute⟩

/-- `n.toString().padStart(2, "0")`. -/
def pad2 (n : ℤ) : String := if 0 ≤ n ∧ n < 10 then "0" ++ toString n else toString n

/-- The literal `HH:MM` string the source builds for a time. -/
def renderHM (t : HM) : String := pad2 t.hour ++ ":" ++ pad2 t.minute

/-- The literal `"start-end"` break-window string the source builds. -/
def renderBreak (b : HM × HM) : String := renderHM b.1 ++ "-" ++ renderHM b.2

/-- The four break windows of a shift; each window is the parsed content of
a `HH:MM-HH:MM` string. -/
structure BreakSchedule where
  firstBreak : HM × HM
  secondBreak : HM × HM
  thirdBreak : HM × HM
  fourthBreak : HM × HM
deriving DecidableEq, Repr

/-- `OperatorShift` from `distribution-utils.ts` / the distribution page. -/
structure OperatorShift where
  shiftId : ℕ
  startTime : HM
  endTime : HM
  duration : ℤ
  breakSchedule : BreakSchedule
deriving DecidableEq, Repr

/-- A province row as read from the database. -/
structure Province where
  id : String
  name : String
  work_start_time : ℤ
  work_end_time : ℤ
  operators : ℤ
deriving DecidableEq, Repr

namespace DistributionUtils

/-- `calculateOperatorsNeeded` from `src/lib/distribution-utils.ts`. -/
def calculateOperatorsNeeded (callVolume : ℤ) (responseRate : ℚ) : ℤ :=
  if responseRate ≤ 0 then 0 else Int.ceil ((callVolume : ℚ) / responseRate)

/-- The province filter at the top of `calculateOptimalDistribution`:
provinces whose working window contains some hour of `workingHours`. -/
def workingProvincesOf (provinces : List Province) (workingHours : List ℤ) : List Province :=
  provinces.filter fun province =>
    workingHours.any fun hour =>
      decide (province.work_start_time ≤ hour) && decide (hour < province.work_end_time)

/-- The proportional share assigned to one province in the `else` branch of
`calculateOptimalDistribution`:
`Math.min(Math.ceil(totalOperatorsNeeded * share), province.operators)`
with `share = province.operators / totalAvailableOperators`. Over exact
rationals `totalOperatorsNeeded * (operators / total)` is
`(totalOperatorsNeeded * operators) / total`, modelled by `ceilDiv`;
`initialShare_eq_ceil` proves it equal to the verbatim source expression. -/
def initialShare (totalOperatorsNeeded totalAvailableOperators : ℤ) (province : Province) : ℤ :=
  min (ceilDiv (totalOperatorsNeeded * province.operators) totalAvailableOperators)
    province.operators

/-- `initialShare` is the exact-rational reading of
`Math.min(Math.ceil(totalOperatorsNeeded * (province.operators / totalAvailableOperators)), province.operators)`. -/
theorem initialShare_eq_ceil (tn total : ℤ) (p : Province) (h : 0 < total) :
    initialShare tn total p =
      min (Int.ceil ((tn : ℚ) * ((p.operators : ℚ) / (total : ℚ)))) p.operators := by
  rw [initialShare, ceilDiv_eq_ceil _ _ h]
  congr 1
  congr 1
  push_cast
  ring

/-- Builds the `distribution` record: one `distribution[province.id] = f province`
write per province, in order. -/
def buildDist (f : Province → ℤ) (l : List Province) (d : String → ℤ) : String → ℤ :=
  l.foldl (fun dist p => Function.update dist p.id (f p)) d

/-- Stable descending insertion by key: the model of the stable
`[...workingProvinces].sort((a, b) => distribution[b.id] - distribution[a.id])`. -/
def insertByDesc (key : Province → ℤ) (x : Province) : List Province → List Province
  | [] => [x]
  | y :: ys => if key x < key y then y :: insertByDesc key x ys else x :: y :: ys

/-- Stable sort, descending by key. -/
def sortByDesc (key : Province → ℤ) (l : List Province) : List Province :=
  l.foldr (insertByDesc key) []

/-- The reconciliation loop of `calculateOptimalDistribution`: while the
assigned total exceeds demand (`break` when `assigned ≤ totalNeeded`), walk
the provinces (sorted by descending assignment) and reduce each by
`reduction = min(excess, assigned - 1)` when that reduction is positive
(`excess = assigned - totalNeeded`; the source's two local consts are
inlined here). -/
def reconcile (totalOperatorsNeeded : ℤ) :
    List Province → (String → ℤ) → ℤ → ((String → ℤ) × ℤ)
  | [], dist, assigned => (dist, assigned)
  | province :: rest, dist, assigned =>
    if assigned ≤ totalOperatorsNeeded then (dist, assigned)
    else if 0 < min (assigned - totalOperatorsNeeded) (dist province.id - 1) then
      reconcile totalOperatorsNeeded rest
        (Function.update dist province.id
          (dist province.id - min (assigned - totalOperatorsNeeded) (dist province.id - 1)))
        (assigned - min (assigned - totalOperatorsNeeded) (dist province.id - 1))
    else
      reconcile totalOperatorsNeeded rest dist assigned

/-- The `dist` record after the proportional-share loop of the `else`
branch. -/
def proportionalDist (totalOperatorsNeeded : ℤ) (workingProvinces : List Province) :
    String → ℤ :=
  buildDist (initialShare totalOperatorsNeeded ((workingProvinces.map Province.operators).sum))
    workingProvinces (fun _ => 0)

/-- `Object.values(distribution).reduce((sum, count) => sum + count, 0)`:
for a record built over provinces with distinct ids, the sum of the
record's values. -/
def assignedSum (workingProvinces : List Province) (dist : String → ℤ) : ℤ :=
  (workingProvinces.map fun p => dist p.id).sum

/-- The body of `calculateOptimalDistribution` once the working provinces
have been selected: full allocation when demand reaches capacity, else the
proportional shares followed by reconciliation when they overshoot. -/
def distributeOverWorking (totalOperatorsNeeded : ℤ) (workingProvinces : List Province) :
    String → ℤ :=
  if (workingProvinces.map Province.operators).sum ≤ totalOperatorsNeeded then
    buildDist Province.operators workingProvinces (fun _ => 0)
  else if totalOperatorsNeeded <
      assignedSum workingProvinces (proportionalDist totalOperatorsNeeded workingProvinces) then
    (reconcile totalOperatorsNeeded
      (sortByDesc (fun p => proportionalDist totalOperatorsNeeded workingProvinces p.id)
        workingProvinces)
      (proportionalDist totalOperatorsNeeded workingProvinces)
      (assignedSum workingProvinces (proportionalDist totalOperatorsNeeded workingProvinces))).1
  else proportionalDist totalOperatorsNeeded workingProvinces

/-- `calculateOptimalDistribution` from `src/lib/distribution-utils.ts`.
The returned record is modelled as a total function that is `0` outside the
ids it assigns (the source's early `return {}` for no working provinces is
the zero function, which the general path also produces there). -/
def calculateOptimalDistribution (totalOperatorsNeeded : ℤ) (provinces : List Province)
    (workingHours : List ℤ) : String → ℤ :=
  distributeOverWorking totalOperatorsNeeded (workingProvincesOf provinces workingHours)

/-- Loop-body guard of `generateOperatorShifts`: operator index `i` is
emitted iff its staggered start hour is still before `work_end_time`
(the source `continue`s when `actualStartHour >= province.work_end_time`). -/
def keepIdx (province : Province) (i : ℕ) : Bool :=
  decide (province.work_start_time + ((i * 15) / 60 : ℕ) < province.work_end_time)

/-- The shift built for operator index `i` in `generateOperatorShifts`. -/
def mkShift (province : Province) (shiftDuration : ℤ) (i : ℕ) : OperatorShift :=
  let startMinute : ℤ := ((i * 15) % 60 : ℕ)
  let actualStartHour : ℤ := province.work_start_time + ((i * 15) / 60 : ℕ)
  let endMinutes := jsMod (actualStartHour * 60 + startMinute + shiftDuration) (24 * 60)
  let breakInterval := jsFloorDiv shiftDuration 5
  let breakAt := fun (j : ℕ) =>
    let breakStartMinutes :=
      jsMod (actualStartHour * 60 + startMinute + (j + 1) * breakInterval) (24 * 60)
    let breakEndMinutes := jsMod (breakStartMinutes + 10) (24 * 60)
    (formatTime (jsFloorDiv breakStartMinutes 60) (jsMod breakStartMinutes 60),
     formatTime (jsFloorDiv breakEndMinutes 60) (jsMod breakEndMinutes 60))
  { shiftId := i + 1
    startTime := formatTime actualStartHour startMinute
    endTime := formatTime (jsFloorDiv endMinutes 60) (jsMod endMinutes 60)
    duration := shiftDuration
    breakSchedule := ⟨breakAt 0, breakAt 1, breakAt 2, breakAt 3⟩ }

/-- One loop iteration: `continue` is `none`, `shifts.push` is `some`. -/
def mkShiftAux (province : Province) (shiftDuration : ℤ) (i : ℕ) : Option OperatorShift :=
  if keepIdx province i then some (mkShift province shiftDuration i) else none

/-- `generateOperatorShifts` from `src/lib/distribution-utils.ts`: the
`for (let i = 0; i < operatorCount; i++)` loop with its `continue` is the
`filterMap` of `mkShiftAux` over the index range. -/
def generateOperatorShifts (province : Province) (operatorCount : ℤ)
    (shiftDuration : ℤ := 420) : List OperatorShift :=
  if operatorCount ≤ 0 then []
  else (List.range operatorCount.toNat).filterMap (mkShiftAux province shiftDuration)

end DistributionUtils

namespace DistributionPage

/-- The shift built for operator index `i` by the generator inlined in the
distribution page (`src/unnamed/part_002`): fixed duration 420 and break
windows spaced at fixed 60-minute intervals, `(j + 1) * 60` minutes after
shift start. -/
def mkShift (province : Province) (i : ℕ) : OperatorShift :=
  let fixedDuration : ℤ := 420
  let startMinute : ℤ := ((i * 15) % 60 : ℕ)
  let actualStartHour : ℤ := province.work_start_time + ((i * 15) / 60 : ℕ)
  let endMinutes := jsMod (actualStartHour * 60 + startMinute + fixedDuration) (24 * 60)
  let breakAt := fun (j : ℕ) =>
    let breakStartMinutes :=
      jsMod (actualStartHour * 60 + startMinute + (j + 1) * 60) (24 * 60)
    let breakEndMinutes := jsMod (breakStartMinutes + 10) (24 * 60)
    (formatTime (jsFloorDiv breakStartMinutes 60) (jsMod breakStartMinutes 60),
     formatTime (jsFloorDiv breakEndMinutes 60) (jsMod breakEndMinutes 60))
  { shiftId := i + 1
    startTime := formatTime actualStartHour startMinute
    endTime := formatTime (jsFloorDiv endMinutes 60) (jsMod endMinutes 60)
    duration := fixedDuration
    breakSchedule := ⟨breakAt 0, breakAt 1, breakAt 2, breakAt 3⟩ }

/-- One loop iteration of the inline generator. -/
def mkShiftAux (province : Province) (i : ℕ) : Option OperatorShift :=
  if DistributionUtils.keepIdx province i then some (mkShift province i) else none

/-- The `generateOperatorShifts` inlined in the distribution page
(`src/unnamed/part_002`, `DistributionPage`). -/
def generateOperatorShifts (province : Province) (operatorCount : ℤ) : List OperatorShift :=
  if operatorCount ≤ 0 then []
  else (List.range operatorCount.toNat).filterMap (mkShiftAux province)

/-- The active-shift filter predicate inlined (identically) in
`handleCalculate` and `handleOperatorChange`:
`(startTime.hour < hour || (startTime.hour === hour && startTime.minute === 0)) && hour < endTime.hour`. -/
def shiftCoversHour (shift : OperatorShift) (hour : ℤ) : Bool :=
  decide ((shift.startTime.hour < hour ∨
    (shift.startTime.hour = hour ∧ shift.startTime.minute = 0)) ∧
    hour < shift.endTime.hour)

/-- `ProvinceDistribution` as built by `handleCalculate`. -/
structure ProvinceDistribution where
  provinceId : String
  provinceName : String
  operators : ℤ
  breakTime : ℤ
  operatorShifts : List OperatorShift
deriving DecidableEq, Repr

/-- One hour row of the distribution table (`DistributionPeriod`). -/
structure DistributionPeriod where
  hour : ℤ
  label : String
  totalCallVolume : ℤ
  provinces : List ProvinceDistribution
deriving DecidableEq, Repr

/-- The per-hour, per-province entry built inside `handleCalculate`
(`src/unnamed/part_002`): the working test, the proportional operator
count, the break time computed from that count, and the active-shift list
filtered from the province's full roster and truncated to that count.
`allShifts` is `allOperatorShifts[province.id] || []`. -/
def provinceEntry (zoneProvinces : List Province) (allShifts : List OperatorShift)
    (averageResponseRate : ℚ) (standardBreakTime : ℤ) (callVolume : ℤ) (hour : ℤ)
    (province : Province) : ProvinceDistribution :=
  let isWorking := province.work_start_time ≤ hour ∧ hour < province.work_end_time
  let totalProvinceOperators := (zoneProvinces.map Province.operators).sum
  let provinceShare : ℚ :=
    if 0 < totalProvinceOperators then (province.operators : ℚ) / (totalProvinceOperators : ℚ)
    else 0
  let totalOperatorsNeeded : ℤ := Int.ceil ((callVolume : ℚ) / averageResponseRate)
  let provinceOperators : ℤ :=
    if isWorking then
      min (Int.ceil ((totalOperatorsNeeded : ℚ) * provinceShare)) province.operators
    else 0
  let operatorsOnBreak := jsFloorDiv provinceOperators 6
  let breakTime := operatorsOnBreak * standardBreakTime
  let activeShifts :=
    (allShifts.filter fun shift => shiftCoversHour shift hour).take provinceOperators.toNat
  { provinceId := province.id
    provinceName := province.name
    operators := activeShifts.length
    breakTime := breakTime
    operatorShifts := activeShifts }

/-- The page state touched by `handleOperatorChange`: the displayed
distribution table and the stored generated rosters keyed by province id
(`operatorShifts[provinceId] || []` is the function value, `[]` outside
the record's domain). -/
structure PageState where
  distribution : List DistributionPeriod
  operatorShifts : String → List OperatorShift

/-- `handleOperatorChange` from the distribution page: clamps the adjusted
count to `[0, maxOperators]`, recomputes the break time (with the
hard-coded default `standardBreakTime = 10`), and replaces the entry's
shift list by the province's stored roster filtered to the row's hour and
truncated to the new count. The state writes `setDistribution` performs
are the returned state; an out-of-range index (a JS runtime error on
`undefined`) is `none`. -/
def handleOperatorChange (zoneProvinces : List Province) (s : PageState)
    (hourIndex provinceIndex : ℕ) (change : ℤ) : Option PageState :=
  match s.distribution.get? hourIndex with
  | none => none
  | some period =>
    match period.provinces.get? provinceIndex with
    | none => none
    | some entry =>
      match zoneProvinces.get? provinceIndex with
      | none => none
      | some zoneProvince =>
        let currentOperators := entry.operators
        let maxOperators := zoneProvince.operators
        let newOperators := max 0 (min (currentOperators + change) maxOperators)
        let standardBreakTime : ℤ := 10
        let operatorsOnBreak := jsFloorDiv newOperators 6
        let newBreakTime := operatorsOnBreak * standardBreakTime
        let allShifts := s.operatorShifts entry.provinceId
        let hour := period.hour
        let activeShifts :=
          (allShifts.filter fun shift => shiftCoversHour shift hour).take newOperators.toNat
        let newEntry := { entry with
          operators := newOperators
          breakTime := newBreakTime
          operatorShifts := activeShifts }
        some { distribution :=
                 s.distribution.set hourIndex
                   { period with provinces := period.provinces.set provinceIndex newEntry }
               operatorShifts := s.operatorShifts }

end DistributionPage

/-! ### Structure of the generator loop -/

/-- A loop whose body either skips or emits a value is the `map` over the
`filter` of the kept indices. -/
theorem filterMap_ite_eq_filter_map {α β : Type} (p : α → Bool) (f : α → β) (l : List α) :
    (l.filterMap fun a => if p a then some (f a) else none) = (l.filter p).map f := by
  induction l with
  | nil => rfl
  | cons a l ih =>
    by_cases h : p a <;> simp [List.filterMap_cons, List.filter_cons, h, ih]

/-- The library generator is the `mkShift` image of the kept index range. -/
theorem genShifts_eq_filter (province : Province) (operatorCount shiftDuration : ℤ) :
    DistributionUtils.generateOperatorShifts province operatorCount shiftDuration =
      ((List.range operatorCount.toNat).filter (DistributionUtils.keepIdx province)).map
        (DistributionUtils.mkShift province shiftDuration) := by
  rw [DistributionUtils.generateOperatorShifts]
  split
  · next h => rw [Int.toNat_of_nonpos h]; rfl
  · have hfn : DistributionUtils.mkShiftAux province shiftDuration = fun i =>
        if DistributionUtils.keepIdx province i then
          some (DistributionUtils.mkShift province shiftDuration i)
        else none := rfl
    rw [hfn, filterMap_ite_eq_filter_map]

/-- The page generator is the page `mkShift` image of the kept index range. -/
theorem pageGenShifts_eq_filter (province : Province) (operatorCount : ℤ) :
    DistributionPage.generateOperatorShifts province operatorCount =
      ((List.range operatorCount.toNat).filter (DistributionUtils.keepIdx province)).map
        (DistributionPage.mkShift province) := by
  rw [DistributionPage.generateOperatorShifts]
  split
  · next h => rw [Int.toNat_of_nonpos h]; rfl
  · have hfn : DistributionPage.mkShiftAux province = fun i =>
        if DistributionUtils.keepIdx province i then
          some (DistributionPage.mkShift province i)
        else none := rfl
    rw [hfn, filterMap_ite_eq_filter_map]

/-- The skip condition is downward closed: a later operator index starts no
earlier, so once an index is skipped all later ones are. -/
theorem keepIdx_mono (province : Province) (i j : ℕ) (hij : i ≤ j)
    (hj : DistributionUtils.keepIdx province j = true) :
    DistributionUtils.keepIdx province i = true := by
  simp only [DistributionUtils.keepIdx, decide_eq_true_eq] at hj ⊢
  have hdiv : i * 15 / 60 ≤ j * 15 / 60 :=
    Nat.div_le_div_right (Nat.mul_le_mul_right _ hij)
  have hz : ((i * 15 / 60 : ℕ) : ℤ) ≤ ((j * 15 / 60 : ℕ) : ℤ) := Int.ofNat_le.mpr hdiv
  omega

/-- Filtering an index range by a downward-closed predicate yields an
initial range. -/
theorem filter_range_dc (p : ℕ → Bool) (hdc : ∀ i j, i ≤ j → p j = true → p i = true)
    (n : ℕ) : ∃ m, m ≤ n ∧ (List.range n).filter p = List.range m := by
  induction n with
  | zero => exact ⟨0, le_rfl, rfl⟩
  | succ n ih =>
    rcases ih with ⟨m, hm, hEq⟩
    by_cases h : p n = true
    · have hall : ∀ a ∈ List.range n, p a = true := fun a ha =>
        hdc a n (Nat.le_of_lt (List.mem_range.mp ha)) h
      refine ⟨n + 1, le_rfl, ?_⟩
      rw [List.range_succ, List.filter_append, List.filter_eq_self.mpr hall]
      simp [h]
    · refine ⟨m, Nat.le_succ_of_le hm, ?_⟩
      rw [List.range_succ, List.filter_append, hEq]
      simp [h]

/-! ### Claims -/

/-- **C4** `generateOperatorShifts` on `{work_start_time: 7, work_end_time: 22,
operators: 3}` with duration 420 yields exactly the three staggered shifts
07:00-14:00, 07:15-14:15, 07:30-14:30, four 10-minute breaks each at
84-minute intervals, the first operator's breaks starting 08:24, 09:48,
11:12, 12:36 (rendered strings included). -/
theorem C4_thm :
    DistributionUtils.generateOperatorShifts ⟨"P", "P", 7, 22, 3⟩ 3 420 =
      [⟨1, ⟨7, 0⟩, ⟨14, 0⟩, 420,
        ⟨(⟨8, 24⟩, ⟨8, 34⟩), (⟨9, 48⟩, ⟨9, 58⟩), (⟨11, 12⟩, ⟨11, 22⟩), (⟨12, 36⟩, ⟨12, 46⟩)⟩⟩,
       ⟨2, ⟨7, 15⟩, ⟨14, 15⟩, 420,
        ⟨(⟨8, 39⟩, ⟨8, 49⟩), (⟨10, 3⟩, ⟨10, 13⟩), (⟨11, 27⟩, ⟨11, 37⟩), (⟨12, 51⟩, ⟨13, 1⟩)⟩⟩,
       ⟨3, ⟨7, 30⟩, ⟨14, 30⟩, 420,
        ⟨(⟨8, 54⟩, ⟨9, 4⟩), (⟨10, 18⟩, ⟨10, 28⟩), (⟨11, 42⟩, ⟨11, 52⟩), (⟨13, 6⟩, ⟨13, 16⟩)⟩⟩] ∧
    (DistributionUtils.generateOperatorShifts ⟨"P", "P", 7, 22, 3⟩ 3 420).map
      (fun s => (renderHM s.startTime, renderHM s.endTime)) =
      [("07:00", "14:00"), ("07:15", "14:15"), ("07:30", "14:30")] ∧
    ((DistributionUtils.generateOperatorShifts ⟨"P", "P", 7, 22, 3⟩ 3 420).head?.map fun s =>
      [renderBreak s.breakSchedule.firstBreak, renderBreak s.breakSchedule.secondBreak,
       renderBreak s.breakSchedule.thirdBreak, renderBreak s.breakSchedule.fourthBreak]) =
      some ["08:24-08:34", "09:48-09:58", "11:12-11:22", "12:36-12:46"] := by
  decide

/-- **C5** `calculateOperatorsNeeded` returns `ceil(callVolume / responseRate)`
for a positive response rate and 0 for a non-positive one. -/
theorem C5_thm (callVolume : ℤ) (responseRate : ℚ) (h_v : 0 ≤ callVolume) :
    (0 < responseRate →
      DistributionUtils.calculateOperatorsNeeded callVolume responseRate =
        Int.ceil ((callVolume : ℚ) / responseRate)) ∧
    (responseRate ≤ 0 →
      DistributionUtils.calculateOperatorsNeeded callVolume responseRate = 0) := by
  constructor
  · intro h
    rw [DistributionUtils.calculateOperatorsNeeded, if_neg (not_le.mpr h)]
  · intro h
    rw [DistributionUtils.calculateOperatorsNeeded, if_pos h]

/-- Witness for C5 at `callVolume = 100`, `responseRate = 80` and `0`. -/
theorem C5_witness :
    (0 ≤ (100 : ℤ) ∧ 0 < (80 : ℚ) ∧
      DistributionUtils.calculateOperatorsNeeded 100 80 = Int.ceil ((100 : ℚ) / 80)) ∧
    ((0 : ℚ) ≤ 0 ∧ DistributionUtils.calculateOperatorsNeeded 100 0 = 0) :=
  ⟨⟨by decide, by decide, (C5_thm 100 80 (by decide)).1 (by decide)⟩,
   ⟨le_refl 0, (C5_thm 100 0 (by decide)).2 (le_refl 0)⟩⟩

/-- **C7** every emitted shift starts strictly before `work_end_time`, at
most `operatorCount` shifts are emitted, and a non-positive count yields
the empty roster. -/
theorem C7_thm (province : Province) (operatorCount shiftDuration : ℤ)
    (h_dur : 0 < shiftDuration) :
    (∀ s ∈ DistributionUtils.generateOperatorShifts province operatorCount shiftDuration,
      s.startTime.hour < province.work_end_time) ∧
    (DistributionUtils.generateOperatorShifts province operatorCount shiftDuration).length ≤
      operatorCount.toNat ∧
    (operatorCount ≤ 0 →
      DistributionUtils.generateOperatorShifts province operatorCount shiftDuration = []) := by
  refine ⟨?_, ?_, ?_⟩
  · intro s hs
    rw [genShifts_eq_filter] at hs
    obtain ⟨i, hi, rfl⟩ := List.mem_map.mp hs
    have hk := (List.mem_filter.mp hi).2
    simp only [DistributionUtils.keepIdx, decide_eq_true_eq] at hk
    exact hk
  · rw [genShifts_eq_filter, List.length_map]
    exact le_trans (List.length_filter_le _ _) (le_of_eq (List.length_range _))
  · intro h
    rw [DistributionUtils.generateOperatorShifts, if_pos h]

/-- Witness for C7: the 7-22 window with 3 operators and duration 420. -/
theorem C7_witness :
    0 < (420 : ℤ) ∧
    ((∀ s ∈ DistributionUtils.generateOperatorShifts ⟨"P", "P", 7, 22, 3⟩ 3 420,
        s.startTime.hour < (⟨"P", "P", 7, 22, 3⟩ : Province).work_end_time) ∧
      (DistributionUtils.generateOperatorShifts ⟨"P", "P", 7, 22, 3⟩ 3 420).length ≤
        (3 : ℤ).toNat ∧
      ((3 : ℤ) ≤ 0 →
        DistributionUtils.generateOperatorShifts ⟨"P", "P", 7, 22, 3⟩ 3 420 = [])) :=
  ⟨by decide, C7_thm ⟨"P", "P", 7, 22, 3⟩ 3 420 (by decide)⟩

/-- **C8** the emitted `shiftId`s are exactly `1, 2, …, k` in ascending
order, where `k` is the number of emitted shifts: the skip condition is
downward closed, so the kept operator indices form an initial segment. -/
theorem C8_thm (province : Province) (operatorCount shiftDuration : ℤ) :
    (DistributionUtils.generateOperatorShifts province operatorCount shiftDuration).map
        OperatorShift.shiftId =
      (List.range
        (DistributionUtils.generateOperatorShifts province operatorCount shiftDuration).length).map
        (fun i => i + 1) := by
  rw [genShifts_eq_filter]
  obtain ⟨m, -, hEq⟩ := filter_range_dc _ (keepIdx_mono province) operatorCount.toNat
  rw [hEq, List.map_map, List.length_map, List.length_range]
  rfl

/-- Amended **C1**: the inline page generator and the library generator at
duration 420 agree on `shiftId`, start time, end time and duration of
every shift — but not on the break windows. -/
def stripBreaks (s : OperatorShift) : ℕ × HM × HM × ℤ :=
  (s.shiftId, s.startTime, s.endTime, s.duration)

/-- **C1 (amended)** for every province and operator count the two
generators produce the same shift list up to break schedules (same
`shiftId`s, start/end times and durations); the break windows themselves
differ, see the counterexample. -/
theorem C1_amended_thm (province : Province) (operatorCount : ℤ) :
    (DistributionPage.generateOperatorShifts province operatorCount).map stripBreaks =
      (DistributionUtils.generateOperatorShifts province operatorCount 420).map stripBreaks := by
  rw [genShifts_eq_filter, pageGenShifts_eq_filter, List.map_map, List.map_map]
  rfl

/-- **C1 counterexample**: for the 7-22 window with one operator the two
generators disagree — the inline generator places the first break at
08:00-08:10 (60-minute spacing) while the library places it at
08:24-08:34 (spacing `floor(420/5) = 84`). -/
theorem C1_counterexample :
    DistributionPage.generateOperatorShifts ⟨"P", "P", 7, 22, 1⟩ 1 ≠
      DistributionUtils.generateOperatorShifts ⟨"P", "P", 7, 22, 1⟩ 1 420 ∧
    ((DistributionPage.generateOperatorShifts ⟨"P", "P", 7, 22, 1⟩ 1).head?.map fun s =>
      renderBreak s.breakSchedule.firstBreak) = some "08:00-08:10" ∧
    ((DistributionUtils.generateOperatorShifts ⟨"P", "P", 7, 22, 1⟩ 1 420).head?.map fun s =>
      renderBreak s.breakSchedule.firstBreak) = some "08:24-08:34" := by
  decide

/-- **C3 (amended)** the active-during-hour test counts a shift as covering
hour `h` iff `startHour ≤ h < endHour` *and*, when `h` equals the start
hour, the start minute is exactly 0: a shift starting at 7:45 is *not*
counted at hour 7. -/
theorem C3_amended_thm (shift : OperatorShift) (hour : ℤ) :
    DistributionPage.shiftCoversHour shift hour = true ↔
      ((shift.startTime.hour ≤ hour ∧ hour < shift.endTime.hour) ∧
        (shift.startTime.hour = hour → shift.startTime.minute = 0)) := by
  simp only [DistributionPage.shiftCoversHour, decide_eq_true_eq]
  omega

/-- **C3 counterexample**: the fourth generated shift of the 7-22 window
starts at 07:45; it satisfies `startHour ≤ 7 < endHour` but the page's
filter does not count it as active at hour 7. -/
theorem C3_counterexample :
    ∃ s ∈ DistributionPage.generateOperatorShifts ⟨"P", "P", 7, 22, 4⟩ 4,
      (s.startTime.hour ≤ 7 ∧ (7 : ℤ) < s.endTime.hour) ∧
      DistributionPage.shiftCoversHour s 7 = false := by
  decide

/-! ### Record and reconciliation lemmas for the distribution calculator -/

/-- A fold of record writes leaves keys outside the written ids untouched. -/
theorem buildDist_not_mem (f : Province → ℤ) (l : List Province) (d : String → ℤ)
    (x : String) (hx : x ∉ l.map Province.id) : DistributionUtils.buildDist f l d x = d x := by
  induction l generalizing d with
  | nil => rfl
  | cons p rest ih =>
    simp only [List.map_cons, List.mem_cons, not_or] at hx
    rw [show DistributionUtils.buildDist f (p :: rest) d =
      DistributionUtils.buildDist f rest (Function.update d p.id (f p)) from rfl]
    rw [ih _ hx.2, Function.update_noteq hx.1]

/-- With distinct ids, the built record holds exactly the written value of
each province. -/
theorem buildDist_lookup (f : Province → ℤ) (l : List Province) (d : String → ℤ)
    (p : Province) (hp : p ∈ l) (hn : (l.map Province.id).Nodup) :
    DistributionUtils.buildDist f l d p.id = f p := by
  induction l generalizing d with
  | nil => cases hp
  | cons q rest ih =>
    simp only [List.map_cons, List.nodup_cons] at hn
    rw [show DistributionUtils.buildDist f (q :: rest) d =
      DistributionUtils.buildDist f rest (Function.update d q.id (f q)) from rfl]
    rcases List.mem_cons.mp hp with rfl | hp2
    · rw [buildDist_not_mem f rest _ _ hn.1, Function.update_same]
    · exact ih _ hp2 hn.2

/-- Updating one id present exactly once replaces its contribution in the
summed record values. -/
theorem assignedSum_update (W : List Province) (dist : String → ℤ) (pid : String) (v : ℤ)
    (hn : (W.map Province.id).Nodup) (hp : pid ∈ W.map Province.id) :
    DistributionUtils.assignedSum W (Function.update dist pid v) =
      DistributionUtils.assignedSum W dist - dist pid + v := by
  induction W with
  | nil => simp at hp
  | cons q rest ih =>
    simp only [List.map_cons, List.nodup_cons, List.mem_cons] at hn hp
    simp only [DistributionUtils.assignedSum, List.map_cons, List.sum_cons] at *
    rcases hp with rfl | hp2
    · have hrest : (rest.map fun p => Function.update dist q.id v p.id).sum =
          (rest.map fun p => dist p.id).sum := by
        refine congrArg List.sum (List.map_congr_left fun p hp => ?_)
        refine Function.update_noteq (fun e => hn.1 ?_) v dist
        rw [← e]
        exact List.mem_map_of_mem Province.id hp
      rw [Function.update_same, hrest]
      ring
    · have hne : q.id ≠ pid := fun e => hn.1 (e ▸ hp2)
      rw [Function.update_noteq hne, ih hn.2 hp2]
      ring

/-- The reconciliation loop keeps `Σ distribution values - assigned`
invariant: `assigned` tracks the record's value sum exactly. -/
theorem reconcile_sum (tn : ℤ) (l W : List Province) (dist : String → ℤ) (assigned : ℤ)
    (hnW : (W.map Province.id).Nodup) (hl : ∀ p ∈ l, p.id ∈ W.map Province.id) :
    DistributionUtils.assignedSum W (DistributionUtils.reconcile tn l dist assigned).1 =
      DistributionUtils.assignedSum W dist - assigned +
        (DistributionUtils.reconcile tn l dist assigned).2 := by
  induction l generalizing dist assigned with
  | nil =>
    simp only [DistributionUtils.reconcile]
    ring
  | cons p rest ih =>
    simp only [DistributionUtils.reconcile]
    split_ifs with h1 h2
    · ring
    · rw [ih _ _ fun q hq => hl q (List.mem_cons_of_mem p hq)]
      rw [assignedSum_update W dist p.id _ hnW (hl p (List.mem_cons_self p rest))]
      ring
    · rw [ih _ _ fun q hq => hl q (List.mem_cons_of_mem p hq)]

/-- The assigned total after reconciliation: demand, unless the caps
(`assigned - 1` per province, never below one) run out first. -/
theorem reconcile_assigned (tn : ℤ) (l : List Province) (dist : String → ℤ) (assigned : ℤ)
    (hle : tn ≤ assigned) (hn : (l.map Province.id).Nodup) :
    (DistributionUtils.reconcile tn l dist assigned).2 =
      max tn (assigned - (l.map fun p => max 0 (dist p.id - 1)).sum) := by
  induction l generalizing dist assigned with
  | nil =>
    simp only [DistributionUtils.reconcile, List.map_nil, List.sum_nil]
    omega
  | cons p rest ih =>
    simp only [List.map_cons, List.nodup_cons] at hn
    have hrest_nonneg : 0 ≤ (rest.map fun q => max 0 (dist q.id - 1)).sum :=
      List.sum_nonneg fun x hx => by
        obtain ⟨q, -, rfl⟩ := List.mem_map.mp hx
        exact le_max_left _ _
    simp only [DistributionUtils.reconcile, List.map_cons, List.sum_cons]
    split_ifs with h1 h2
    · omega
    · have hupd : ∀ q ∈ rest,
          Function.update dist p.id
            (dist p.id - min (assigned - tn) (dist p.id - 1)) q.id = dist q.id := by
        intro q hq
        refine Function.update_noteq (fun e => hn.1 ?_) _ dist
        rw [← e]
        exact List.mem_map_of_mem Province.id hq
      have hmapeq : (rest.map fun q => max 0 (Function.update dist p.id
            (dist p.id - min (assigned - tn) (dist p.id - 1)) q.id - 1)).sum =
          (rest.map fun q => max 0 (dist q.id - 1)).sum :=
        congrArg List.sum (List.map_congr_left fun q hq => by rw [hupd q hq])
      rw [ih _ _ (by omega) hn.2, hmapeq]
      omega
    · rw [ih _ _ hle hn.2]
      omega

/-- Inserting keeps the elements: the sort is a permutation. -/
theorem insertByDesc_perm (key : Province → ℤ) (x : Province) (l : List Province) :
    (DistributionUtils.insertByDesc key x l).Perm (x :: l) := by
  induction l with
  | nil => exact List.Perm.refl _
  | cons y ys ih =>
    rw [DistributionUtils.insertByDesc]
    split
    · exact (ih.cons y).trans (List.Perm.swap x y ys)
    · exact List.Perm.refl _

/-- The descending sort is a permutation of its input. -/
theorem sortByDesc_perm (key : Province → ℤ) (l : List Province) :
    (DistributionUtils.sortByDesc key l).Perm l := by
  induction l with
  | nil => exact List.Perm.refl _
  | cons x xs ih =>
    exact (insertByDesc_perm key x _).trans (ih.cons x)

/-- Subtracting one from every summand subtracts the length. -/
theorem sum_map_sub_one (W : List Province) (g : Province → ℤ) :
    (W.map fun p => g p - 1).sum = (W.map g).sum - W.length := by
  induction W with
  | nil => simp
  | cons q rest ih =>
    simp only [List.map_cons, List.sum_cons, ih, List.length_cons]
    push_cast
    ring

/-- Core bound for the corrected C2: over provinces with distinct ids the
distribution body never assigns more than
`max(totalNeeded, number of working provinces)` in total. -/
theorem distribute_sum_le (tn : ℤ) (W : List Province) (hn : (W.map Province.id).Nodup) :
    DistributionUtils.assignedSum W (DistributionUtils.distributeOverWorking tn W) ≤
      max tn (W.length : ℤ) := by
  rw [DistributionUtils.distributeOverWorking]
  split_ifs with hge hover
  · have hfull : DistributionUtils.assignedSum W
        (DistributionUtils.buildDist Province.operators W (fun _ => 0)) =
        (W.map Province.operators).sum := by
      refine congrArg List.sum (List.map_congr_left fun p hp => ?_)
      exact buildDist_lookup Province.operators W _ p hp hn
    rw [hfull]
    exact le_trans hge (le_max_left _ _)
  · have hperm := sortByDesc_perm
      (fun p => DistributionUtils.proportionalDist tn W p.id) W
    have hsorted_nodup : ((DistributionUtils.sortByDesc
        (fun p => DistributionUtils.proportionalDist tn W p.id) W).map Province.id).Nodup :=
      (hperm.map Province.id).nodup_iff.mpr hn
    have hmem : ∀ p ∈ DistributionUtils.sortByDesc
        (fun p => DistributionUtils.proportionalDist tn W p.id) W,
        p.id ∈ W.map Province.id := fun p hp =>
      List.mem_map_of_mem Province.id (hperm.subset hp)
    have hsum := reconcile_sum tn _ W (DistributionUtils.proportionalDist tn W)
      (DistributionUtils.assignedSum W (DistributionUtils.proportionalDist tn W)) hn hmem
    have hass := reconcile_assigned tn _ (DistributionUtils.proportionalDist tn W)
      (DistributionUtils.assignedSum W (DistributionUtils.proportionalDist tn W))
      (le_of_lt hover) hsorted_nodup
    have hcapperm : ((DistributionUtils.sortByDesc
          (fun p => DistributionUtils.proportionalDist tn W p.id) W).map
          fun p => max 0 (DistributionUtils.proportionalDist tn W p.id - 1)).sum =
        (W.map fun p => max 0 (DistributionUtils.proportionalDist tn W p.id - 1)).sum :=
      (hperm.map _).sum_eq
    have hpt : ∀ p ∈ W, DistributionUtils.proportionalDist tn W p.id - 1 ≤
        max 0 (DistributionUtils.proportionalDist tn W p.id - 1) := fun p _ =>
      le_max_right _ _
    have hlower : (W.map fun p => DistributionUtils.proportionalDist tn W p.id - 1).sum ≤
        (W.map fun p => max 0 (DistributionUtils.proportionalDist tn W p.id - 1)).sum :=
      List.sum_le_sum hpt
    have hsub := sum_map_sub_one W (fun p => DistributionUtils.proportionalDist tn W p.id)
    have hS : DistributionUtils.assignedSum W (DistributionUtils.proportionalDist tn W) =
        (W.map fun p => DistributionUtils.proportionalDist tn W p.id).sum := rfl
    rw [hsum, hass, hcapperm]
    omega
  · exact le_trans (not_lt.mp hover) (le_max_left _ _)

/-- **C6** when demand reaches the working provinces' total capacity, every
working province is assigned exactly its full `operators` value. -/
theorem C6_thm (totalNeeded : ℤ) (provinces : List Province) (workingHours : List ℤ)
    (hnodup : ((DistributionUtils.workingProvincesOf provinces workingHours).map
      Province.id).Nodup)
    (hcap : ((DistributionUtils.workingProvincesOf provinces workingHours).map
      Province.operators).sum ≤ totalNeeded) :
    ∀ p ∈ DistributionUtils.workingProvincesOf provinces workingHours,
      DistributionUtils.calculateOptimalDistribution totalNeeded provinces workingHours p.id =
        p.operators := by
  intro p hp
  rw [DistributionUtils.calculateOptimalDistribution, DistributionUtils.distributeOverWorking,
    if_pos hcap]
  exact buildDist_lookup Province.operators _ _ p hp hnodup

/-- Witness for C6: two full-day provinces, demand 5 above the capacity 3. -/
theorem C6_witness :
    (((DistributionUtils.workingProvincesOf
        [⟨"A", "A", 0, 24, 1⟩, ⟨"B", "B", 0, 24, 2⟩] [12]).map Province.id).Nodup ∧
      ((DistributionUtils.workingProvincesOf
        [⟨"A", "A", 0, 24, 1⟩, ⟨"B", "B", 0, 24, 2⟩] [12]).map Province.operators).sum ≤ 5 ∧
      (⟨"A", "A", 0, 24, 1⟩ : Province) ∈ DistributionUtils.workingProvincesOf
        [⟨"A", "A", 0, 24, 1⟩, ⟨"B", "B", 0, 24, 2⟩] [12]) ∧
    DistributionUtils.calculateOptimalDistribution 5
      [⟨"A", "A", 0, 24, 1⟩, ⟨"B", "B", 0, 24, 2⟩] [12] "A" = 1 :=
  ⟨⟨by decide, by decide, by decide⟩,
   C6_thm 5 [⟨"A", "A", 0, 24, 1⟩, ⟨"B", "B", 0, 24, 2⟩] [12] (by decide) (by decide)
     ⟨"A", "A", 0, 24, 1⟩ (by decide)⟩

/-- **C2 (amended)** with distinct province ids, whenever demand is below
capacity the assigned counts sum to at most
`max(totalNeeded, number of working provinces)` — not always to at most
`totalNeeded`: the loop never reduces a province below one operator, see
the counterexample. -/
theorem C2_amended_thm (totalNeeded : ℤ) (provinces : List Province) (workingHours : List ℤ)
    (h_0 : 0 ≤ totalNeeded)
    (hnodup : ((DistributionUtils.workingProvincesOf provinces workingHours).map
      Province.id).Nodup)
    (h_cap : totalNeeded < ((DistributionUtils.workingProvincesOf provinces workingHours).map
      Province.operators).sum) :
    DistributionUtils.assignedSum (DistributionUtils.workingProvincesOf provinces workingHours)
        (DistributionUtils.calculateOptimalDistribution totalNeeded provinces workingHours) ≤
      max totalNeeded
        ((DistributionUtils.workingProvincesOf provinces workingHours).length : ℤ) := by
  rw [DistributionUtils.calculateOptimalDistribution]
  exact distribute_sum_le totalNeeded _ hnodup

/-- **C2 counterexample**: two working provinces with one operator each and
`totalNeeded = 1 <` capacity `2`, yet the returned counts sum to `2 > 1`:
the reconciliation loop cannot reduce either province below one operator. -/
theorem C2_counterexample :
    (0 : ℤ) ≤ 1 ∧
    (1 : ℤ) < ((DistributionUtils.workingProvincesOf
      [⟨"A", "A", 0, 24, 1⟩, ⟨"B", "B", 0, 24, 1⟩] [12]).map Province.operators).sum ∧
    DistributionUtils.assignedSum
      (DistributionUtils.workingProvincesOf
        [⟨"A", "A", 0, 24, 1⟩, ⟨"B", "B", 0, 24, 1⟩] [12])
      (DistributionUtils.calculateOptimalDistribution 1
        [⟨"A", "A", 0, 24, 1⟩, ⟨"B", "B", 0, 24, 1⟩] [12]) = 2 ∧
    ¬ DistributionUtils.assignedSum
      (DistributionUtils.workingProvincesOf
        [⟨"A", "A", 0, 24, 1⟩, ⟨"B", "B", 0, 24, 1⟩] [12])
      (DistributionUtils.calculateOptimalDistribution 1
        [⟨"A", "A", 0, 24, 1⟩, ⟨"B", "B", 0, 24, 1⟩] [12]) ≤ 1 := by
  decide

/-- Witness for C2: provinces with 2 and 1 operators, demand 2 below the
capacity 3; the bound `max 2 2` holds. -/
theorem C2_witness :
    ((0 : ℤ) ≤ 2 ∧
      ((DistributionUtils.workingProvincesOf
        [⟨"A", "A", 0, 24, 2⟩, ⟨"B", "B", 0, 24, 1⟩] [12]).map Province.id).Nodup ∧
      (2 : ℤ) < ((DistributionUtils.workingProvincesOf
        [⟨"A", "A", 0, 24, 2⟩, ⟨"B", "B", 0, 24, 1⟩] [12]).map Province.operators).sum) ∧
    DistributionUtils.assignedSum
        (DistributionUtils.workingProvincesOf
          [⟨"A", "A", 0, 24, 2⟩, ⟨"B", "B", 0, 24, 1⟩] [12])
        (DistributionUtils.calculateOptimalDistribution 2
          [⟨"A", "A", 0, 24, 2⟩, ⟨"B", "B", 0, 24, 1⟩] [12]) ≤
      max 2 ((DistributionUtils.workingProvincesOf
        [⟨"A", "A", 0, 24, 2⟩, ⟨"B", "B", 0, 24, 1⟩] [12]).length : ℤ) :=
  ⟨⟨by decide, by decide, by decide⟩,
   C2_amended_thm 2 [⟨"A", "A", 0, 24, 2⟩, ⟨"B", "B", 0, 24, 1⟩] [12]
     (by decide) (by decide) (by decide)⟩

/-! ### C10: the break-time field of a distribution entry -/

/-- **C10** the `breakTime` of every per-hour, per-province entry equals
`floor(n / 6) * standard_break_time` where `n` is the pre-filter operator
count (`min(ceil(totalOperatorsNeeded * provinceShare), province.operators)`
when working, else 0) — not the length of the filtered active-shift list
stored in `operators`; the paired concrete instance has `breakTime = 10`
while `operators = 0`. -/
theorem C10_thm :
    (∀ (zoneProvinces : List Province) (allShifts : List OperatorShift)
      (averageResponseRate : ℚ) (standardBreakTime callVolume hour : ℤ)
      (province : Province),
      (DistributionPage.provinceEntry zoneProvinces allShifts averageResponseRate
        standardBreakTime callVolume hour province).breakTime =
        jsFloorDiv
          (if province.work_start_time ≤ hour ∧ hour < province.work_end_time then
            min (Int.ceil
              ((Int.ceil ((callVolume : ℚ) / averageResponseRate) : ℚ) *
                (if 0 < (zoneProvinces.map Province.operators).sum then
                  (province.operators : ℚ) / ((zoneProvinces.map Province.operators).sum : ℚ)
                else 0)))
              province.operators
          else 0) 6 * standardBreakTime) ∧
    (DistributionPage.provinceEntry [⟨"A", "A", 7, 22, 6⟩] [] 80 10 480 8
      ⟨"A", "A", 7, 22, 6⟩).breakTime = 10 ∧
    (DistributionPage.provinceEntry [⟨"A", "A", 7, 22, 6⟩] [] 80 10 480 8
      ⟨"A", "A", 7, 22, 6⟩).operators = 0 := by
  have h1 : Int.ceil (((480 : ℤ) : ℚ) / (80 : ℚ)) = (6 : ℤ) := by
    rw [show (((480 : ℤ) : ℚ) / (80 : ℚ)) = ((6 : ℤ) : ℚ) by push_cast; norm_num]
    exact Int.ceil_intCast 6
  have h2 : Int.ceil (((6 : ℤ) : ℚ) * (((6 : ℤ) : ℚ) / ((6 : ℤ) : ℚ))) = (6 : ℤ) := by
    rw [show (((6 : ℤ) : ℚ) * (((6 : ℤ) : ℚ) / ((6 : ℤ) : ℚ))) = ((6 : ℤ) : ℚ) by
      push_cast
      norm_num]
    exact Int.ceil_intCast 6
  refine ⟨fun zoneProvinces allShifts averageResponseRate standardBreakTime callVolume
    hour province => rfl, ?_, ?_⟩
  · simp only [DistributionPage.provinceEntry, List.map_cons, List.map_nil, List.sum_cons,
      List.sum_nil, add_zero]
    rw [if_pos (show (0 : ℤ) < 6 by decide), h1, h2,
      if_pos (show (7 : ℤ) ≤ 8 ∧ (8 : ℤ) < 22 by decide)]
    decide
  · simp only [DistributionPage.provinceEntry, List.map_cons, List.map_nil, List.sum_cons,
      List.sum_nil, add_zero]
    rw [if_pos (show (0 : ℤ) < 6 by decide), h1, h2,
      if_pos (show (7 : ℤ) ≤ 8 ∧ (8 : ℤ) < 22 by decide)]
    decide

/-! ### C9: manual adjustment only reselects from the stored roster -/

/-- Setting an in-range index makes lookup return the new element. -/
theorem get?_set_self {α : Type} (l : List α) (i : ℕ) (a b : α)
    (h : l.get? i = some b) : (l.set i a).get? i = some a := by
  induction l generalizing i with
  | nil => simp at h
  | cons x xs ih =>
    cases i with
    | zero => rfl
    | succ n => exact ih n h

/-- **C9** a successful `handleOperatorChange` leaves the stored generated
rosters untouched and replaces the adjusted entry's displayed shift list
with the province's stored roster filtered to the row's hour and truncated
to the clamped new count — a sublist of the roster, never new timings. -/
theorem C9_thm (zoneProvinces : List Province) (s : DistributionPage.PageState)
    (hourIndex provinceIndex : ℕ) (change : ℤ) (s2 : DistributionPage.PageState)
    (period : DistributionPage.DistributionPeriod)
    (entry : DistributionPage.ProvinceDistribution) (zoneProvince : Province)
    (hper : s.distribution.get? hourIndex = some period)
    (hent : period.provinces.get? provinceIndex = some entry)
    (hzp : zoneProvinces.get? provinceIndex = some zoneProvince)
    (h : DistributionPage.handleOperatorChange zoneProvinces s hourIndex provinceIndex change =
      some s2) :
    s2.operatorShifts = s.operatorShifts ∧
    ∃ newEntry : DistributionPage.ProvinceDistribution,
      (s2.distribution.get? hourIndex).bind
        (fun per => per.provinces.get? provinceIndex) = some newEntry ∧
      newEntry.operatorShifts =
        ((s.operatorShifts entry.provinceId).filter fun sh =>
          DistributionPage.shiftCoversHour sh period.hour).take
          (max 0 (min (entry.operators + change) zoneProvince.operators)).toNat ∧
      ∀ sh ∈ newEntry.operatorShifts, sh ∈ s.operatorShifts entry.provinceId := by
  simp only [DistributionPage.handleOperatorChange, hper, hent, hzp,
    Option.some.injEq] at h
  subst h
  refine ⟨rfl, ?_⟩
  refine ⟨⟨entry.provinceId, entry.provinceName,
    max 0 (min (entry.operators + change) zoneProvince.operators),
    jsFloorDiv (max 0 (min (entry.operators + change) zoneProvince.operators)) 6 * 10,
    ((s.operatorShifts entry.provinceId).filter fun shift =>
      DistributionPage.shiftCoversHour shift period.hour).take
      (max 0 (min (entry.operators + change) zoneProvince.operators)).toNat⟩, ?_, rfl, ?_⟩
  · rw [get?_set_self _ _ _ _ hper]
    exact get?_set_self _ _ _ _ hent
  · intro sh hsh
    exact List.mem_of_mem_filter (List.mem_of_mem_take hsh)

/-- Sample roster shift for the C9 witness. -/
def w9Shift : OperatorShift :=
  ⟨1, ⟨7, 0⟩, ⟨14, 0⟩, 420,
    ⟨(⟨8, 0⟩, ⟨8, 10⟩), (⟨9, 0⟩, ⟨9, 10⟩), (⟨10, 0⟩, ⟨10, 10⟩), (⟨11, 0⟩, ⟨11, 10⟩)⟩⟩

/-- Sample distribution entry for the C9 witness. -/
def w9Entry : DistributionPage.ProvinceDistribution := ⟨"A", "A", 0, 0, []⟩

/-- Sample hour row for the C9 witness. -/
def w9Period : DistributionPage.DistributionPeriod := ⟨8, "8:00 - 9:00", 100, [w9Entry]⟩

/-- Sample zone province list for the C9 witness. -/
def w9Provinces : List Province := [⟨"A", "A", 7, 22, 2⟩]

/-- Sample page state for the C9 witness. -/
def w9State : DistributionPage.PageState := ⟨[w9Period], fun _ => [w9Shift]⟩

/-- The page state `handleOperatorChange` produces from `w9State` on a `+1`
adjustment. -/
def w9After : DistributionPage.PageState :=
  ⟨[⟨8, "8:00 - 9:00", 100, [⟨"A", "A", 1, 0, [w9Shift]⟩]⟩], fun _ => [w9Shift]⟩

/-- Witness for C9 at the sample state: the adjustment succeeds and the
conclusions hold there. -/
theorem C9_witness :
    (w9State.distribution.get? 0 = some w9Period ∧
      w9Period.provinces.get? 0 = some w9Entry ∧
      w9Provinces.get? 0 = some (⟨"A", "A", 7, 22, 2⟩ : Province) ∧
      DistributionPage.handleOperatorChange w9Provinces w9State 0 0 1 = some w9After) ∧
    (w9After.operatorShifts = w9State.operatorShifts ∧
      ∃ newEntry : DistributionPage.ProvinceDistribution,
        (w9After.distribution.get? 0).bind (fun per => per.provinces.get? 0) = some newEntry ∧
        newEntry.operatorShifts =
          ((w9State.operatorShifts w9Entry.provinceId).filter fun sh =>
            DistributionPage.shiftCoversHour sh w9Period.hour).take
            (max 0 (min (w9Entry.operators + 1)
              (⟨"A", "A", 7, 22, 2⟩ : Province).operators)).toNat ∧
        ∀ sh ∈ newEntry.operatorShifts, sh ∈ w9State.operatorShifts w9Entry.provinceId) :=
  ⟨⟨rfl, rfl, rfl, rfl⟩,
   C9_thm w9Provinces w9State 0 0 1 w9After w9Period w9Entry ⟨"A", "A", 7, 22, 2⟩
     rfl rfl rfl rfl⟩

end OperatorShiftMgmt
